import Mathlib

/-!
Verification of the kwalificatiedossier comparator (`comparator.py`) of the
KDvergelijker repository.  The Python module `DossierComparator` is shallowly
embedded below: each private method becomes a Lean function over explicit
data, Python dicts become association-style lookups on lists, Python sets
become lists used only through membership, and the floating point
`Levenshtein.ratio` is modelled exactly as the rational `2·LCS/(|a|+|b|)`
(the documented value of python-Levenshtein's `ratio`, which weighs
substitutions as 2).  All definitions are executable so theorems can be
checked on concrete inputs.
-/

namespace KD

/-- A coded entity (werkproces or kerntaak): `{code, naam}` record as produced
by the ingestion step. -/
structure WP where
  code : String
  naam : String
deriving DecidableEq, Repr

/-- One output row of the comparison, mirroring the result dictionaries of
`comparator.py` (`codering_oud`, `naam_oud`, `codering_nieuw`, `naam_nieuw`,
`impact`, `pagina`). -/
structure Row where
  codering_oud : String
  naam_oud : String
  codering_nieuw : String
  naam_nieuw : String
  impact : String
  pagina : String
deriving DecidableEq, Repr

/-- Metadata fields of one dossier, as read by `_compare_metadata`. -/
structure Metadata where
  crebonr_dossier : String
  crebonr_kwalificatie : String
  naam_kwalificatie : String
  versie : String
  geldig_vanaf : String
deriving DecidableEq, Repr

/-- The full parsed dossier record consumed by `DossierComparator`. -/
structure DossierData where
  metadata : Metadata
  kerntaken : List WP
  werkprocessen : List WP
  context : String
  beroepshouding : String
  resultaat : String
  vakkennis_vaardigheden : List String
deriving DecidableEq, Repr

/-- The mutable match state of the comparator: the sets
`matched_oud_werkprocessen`, `matched_nieuw_werkprocessen`,
`processed_combinations` (modelled as lists used only via membership) together
with the result rows accumulated so far. -/
structure MatchState where
  matchedOud : List String
  matchedNieuw : List String
  processed : List (String × String)
  rows : List Row
deriving DecidableEq, Repr

/-- Lexicographic strict comparison of character lists by Unicode code point,
the order Python uses to compare strings (`sorted`). -/
def charListLt : List Char → List Char → Bool
  | [], [] => false
  | [], _ :: _ => true
  | _ :: _, [] => false
  | a :: as, b :: bs =>
    if a.toNat < b.toNat then true
    else if b.toNat < a.toNat then false
    else charListLt as bs

/-- Python string `<=`, used as the sorting relation of `sorted`. -/
def strLe (a b : String) : Prop := charListLt b.data a.data = false

instance : DecidableRel strLe := fun a b => instDecidableEqBool _ _

/-- Length of a longest common subsequence, by the textbook recursion; the
first argument is fuel (any value at least `l₁.length + l₂.length` is exact),
which keeps the recursion structural and hence kernel-computable. -/
def lcsLenAux : Nat → List Char → List Char → Nat
  | 0, _, _ => 0
  | _ + 1, [], _ => 0
  | _ + 1, _ :: _, [] => 0
  | fuel + 1, a :: as, b :: bs =>
    if a = b then lcsLenAux fuel as bs + 1
    else max (lcsLenAux fuel (a :: as) bs) (lcsLenAux fuel as (b :: bs))

/-- Length of a longest common subsequence of two character lists. -/
def lcsLen (l1 l2 : List Char) : Nat := lcsLenAux (l1.length + l2.length) l1 l2

/-- Python `str.lower()`, restricted to the ASCII case mapping (all codes and
names in this domain are ASCII). -/
def strLower (s : String) : String := String.mk (s.data.map Char.toLower)

/-- The similarity primitive: `Levenshtein.ratio(a, b)` of python-Levenshtein,
which equals `(|a|+|b| - dist₂)/(|a|+|b|)` with substitution cost 2, i.e.
`2·LCS(a,b)/(|a|+|b|)`, and `1` when both strings are empty.  Modelled as an
exact rational where the source uses a float. -/
def similarity (a b : String) : ℚ :=
  let n := a.length + b.length
  if n = 0 then 1 else mkRat (2 * lcsLen a.data b.data) n

/-- Python `str.split()` with no arguments: split on whitespace runs and drop
empty pieces. -/
def pyWords (s : String) : List String :=
  (s.split Char.isWhitespace).filter (fun w => w ≠ "")

/-- Embedding of `_describe_text_change`: word-level added/removed clauses over
words longer than 3 characters, with a length-ratio fallback.  The float
factors `1.2` and `0.8` are modelled as the rationals `6/5` and `4/5`. -/
def describeTextChange (old_text new_text : String) : String :=
  let old_words := ((pyWords old_text).filter (fun w => w.length > 3)).map strLower
  let new_words := ((pyWords new_text).filter (fun w => w.length > 3)).map strLower
  let added_words := new_words.filter (fun w => ¬ w ∈ old_words)
  let removed_words := old_words.filter (fun w => ¬ w ∈ new_words)
  let changes : List String :=
    (if added_words.isEmpty then []
     else ["toevoeging van \x27" ++ String.intercalate ", " (added_words.take 3) ++ "\x27"]) ++
    (if removed_words.isEmpty then []
     else ["verwijdering van \x27" ++ String.intercalate ", " (removed_words.take 3) ++ "\x27"])
  if changes.isEmpty then
    if (new_text.length : ℚ) > (old_text.length : ℚ) * mkRat 6 5 then
      "uitgebreidere beschrijving met meer details"
    else if (new_text.length : ℚ) < (old_text.length : ℚ) * mkRat 4 5 then
      "beknoptere beschrijving met minder details"
    else
      "herformulering zonder significante inhoudelijke wijzigingen"
  else
    String.intercalate " en " changes

/-- Embedding of `_compare_metadata`: four rows, one per metadata field group,
each emitted unconditionally with its fixed impact template. -/
def compareMetadata (oudM nieuwM : Metadata) : List Row :=
  [⟨oudM.crebonr_dossier, "-", nieuwM.crebonr_dossier, "-",
    "Wijziging van crebonummer van het kwalificatiedossier", "1"⟩,
   ⟨oudM.crebonr_kwalificatie, oudM.naam_kwalificatie,
    nieuwM.crebonr_kwalificatie, nieuwM.naam_kwalificatie,
    "Naamswijziging van " ++ oudM.naam_kwalificatie ++ " naar " ++
      nieuwM.naam_kwalificatie ++ " en wijziging van crebonummer", "1"⟩,
   ⟨"-", "Gewijzigd " ++ oudM.versie, "-", "Gewijzigd " ++ nieuwM.versie,
    "Actualisatie van het kwalificatiedossier", "1"⟩,
   ⟨"-", "Geldig vanaf " ++ oudM.geldig_vanaf, "-",
    "Geldig vanaf " ++ nieuwM.geldig_vanaf, "Nieuwe geldigheidsdatum", "1"⟩]

/-- Value lookup in a Python dict comprehension `{wp["code"]: wp for wp in l}`:
for duplicate codes the last entry wins. -/
def lookupLastWP (l : List WP) (c : String) : Option WP :=
  l.reverse.find? (fun w => decide (w.code = c))

/-- Python `sorted(set(oudCodes + nieuwCodes))`: the distinct codes of both
lists in ascending string order. -/
def sortedCodes (oudKt nieuwKt : List WP) : List String :=
  ((oudKt.map WP.code ++ nieuwKt.map WP.code).dedup).insertionSort strLe

/-- The row `_compare_kerntaken` emits for one code of the union. -/
def kerntaakRowFor (oudKt nieuwKt : List WP) (c : String) : Row :=
  let oudNaam := ((lookupLastWP oudKt c).map WP.naam).getD ""
  let nieuwNaam := ((lookupLastWP nieuwKt c).map WP.naam).getD ""
  let inOud := c ∈ oudKt.map WP.code
  let inNieuw := c ∈ nieuwKt.map WP.code
  if inOud ∧ inNieuw then
    { codering_oud := c, naam_oud := oudNaam, codering_nieuw := c,
      naam_nieuw := nieuwNaam,
      impact :=
        if oudNaam ≠ nieuwNaam then
          "Naamswijziging van de kerntaak: " ++ describeTextChange oudNaam nieuwNaam
        else "Geen wijziging in naam of codering",
      pagina := "6" }
  else if inOud then
    { codering_oud := c, naam_oud := oudNaam, codering_nieuw := "-",
      naam_nieuw := "-", impact := "Kerntaak verwijderd in het nieuwe dossier",
      pagina := "6" }
  else
    { codering_oud := "-", naam_oud := "-", codering_nieuw := c,
      naam_nieuw := nieuwNaam,
      impact := "Nieuwe kerntaak toegevoegd in het nieuwe dossier",
      pagina := "6" }

/-- Embedding of `_compare_kerntaken`: one row per code in the sorted union of
old and new kerntaak codes, matched purely by code equality. -/
def compareKerntaken (oudKt nieuwKt : List WP) : List Row :=
  (sortedCodes oudKt nieuwKt).map (kerntaakRowFor oudKt nieuwKt)

/-- Impact text of a re-coded werkproces, `"Werkproces heeft nieuwe codering
gekregen: van X naar Y"`. -/
def recodeMsg (a b : String) : String :=
  "Werkproces heeft nieuwe codering gekregen: van " ++ a ++ " naar " ++ b

/-- Impact text used by phases 2 and 3: the re-code template, with an appended
rename clause when the names differ. -/
def shiftImpact (o : WP) (ncode nm : String) : String :=
  if o.naam = nm then recodeMsg o.code ncode
  else recodeMsg o.code ncode ++ ". Naamswijziging: " ++ describeTextChange o.naam nm

/-- Phase 1 (`STAP 1`) body for one old werkproces: skip if consumed, else
match the first name-equal, unconsumed, unprocessed new werkproces (the name
groups of `nieuw_wp_by_naam` keep input order, so scanning `nieuw` directly is
the same scan), emit and mark; codes are not consulted for matching. -/
def phase1Step (nieuw : List WP) (st : MatchState) (o : WP) : MatchState :=
  if o.code ∈ st.matchedOud then st
  else
    match nieuw.find? (fun n =>
        decide (n.naam = o.naam ∧ ¬ n.code ∈ st.matchedNieuw ∧
          ¬ (o.code, n.code) ∈ st.processed)) with
    | none => st
    | some n =>
      { matchedOud := o.code :: st.matchedOud
        matchedNieuw := n.code :: st.matchedNieuw
        processed := (o.code, n.code) :: st.processed
        rows := st.rows ++
          [⟨o.code, o.naam, n.code, n.naam,
            if o.code = n.code then "Geen wijziging in naam of codering"
            else recodeMsg o.code n.code, "7-14"⟩] }

/-- Digits to a number, as Python `int()` on a nonempty digit string. -/
def digitsToNat (ds : List Char) : Nat :=
  ds.foldl (fun a c => a * 10 + (c.toNat - 48)) 0

/-- The regex `re.match(r'(B\d+-K\d+)-W(\d+)', code)` of phase 2: an anchored
prefix parse returning the kerntaak part `B…-K…` and the werkproces number.
Digits are ASCII `0-9`; trailing characters are ignored, as with `re.match`. -/
def parseWpCode (c : String) : Option (String × Nat) :=
  match c.data with
  | 'B' :: r1 =>
    let d1 := r1.takeWhile Char.isDigit
    if d1.isEmpty then none
    else
      match r1.dropWhile Char.isDigit with
      | '-' :: 'K' :: r2 =>
        let d2 := r2.takeWhile Char.isDigit
        if d2.isEmpty then none
        else
          match r2.dropWhile Char.isDigit with
          | '-' :: 'W' :: r3 =>
            let d3 := r3.takeWhile Char.isDigit
            if d3.isEmpty then none
            else some (String.mk ('B' :: d1 ++ '-' :: 'K' :: d2), digitsToNat d3)
          | _ => none
      | _ => none
  | _ => none

/-- Candidate code `f"{kerntaak}-W{n}"` at a (possibly negative) number. -/
def shiftCode (parent : String) (m : Int) : String :=
  parent ++ "-W" ++ toString m

/-- The acceptance test of one phase-2 offset, exactly the chain of checks of
the loop body: the candidate code exists (dict lookup, last entry wins), is
unconsumed, the pair is unprocessed, and the lowercased name similarity
exceeds `0.7` or the names are exactly equal. -/
def shiftValid (nieuw : List WP) (st : MatchState) (o : WP) (parent : String)
    (num : Nat) (d : Int) : Bool :=
  match lookupLastWP nieuw (shiftCode parent ((num : Int) + d)) with
  | none => false
  | some nwp =>
    decide (¬ shiftCode parent ((num : Int) + d) ∈ st.matchedNieuw) &&
    decide (¬ (o.code, shiftCode parent ((num : Int) + d)) ∈ st.processed) &&
    (decide (similarity (strLower o.naam) (strLower nwp.naam) > mkRat 7 10) ||
     decide (o.naam = nwp.naam))

/-- The state produced when phase 2 accepts the candidate at offset `d`. -/
def emitShift (nieuw : List WP) (st : MatchState) (o : WP) (parent : String)
    (num : Nat) (d : Int) : MatchState :=
  match lookupLastWP nieuw (shiftCode parent ((num : Int) + d)) with
  | none => st
  | some nwp =>
    { matchedOud := o.code :: st.matchedOud
      matchedNieuw := shiftCode parent ((num : Int) + d) :: st.matchedNieuw
      processed := (o.code, shiftCode parent ((num : Int) + d)) :: st.processed
      rows := st.rows ++
        [⟨o.code, o.naam, shiftCode parent ((num : Int) + d), nwp.naam,
          shiftImpact o (shiftCode parent ((num : Int) + d)) nwp.naam, "7-14"⟩] }

/-- The phase-2 offset loop `for offset in [1, 2, 3, -1, -2, -3]`, with the
source's control flow: a failing check falls through to the next offset, an
accepted candidate emits and stops the scan. -/
def tryOffsets (nieuw : List WP) (o : WP) (parent : String) (num : Nat) :
    MatchState → List Int → MatchState
  | st, [] => st
  | st, d :: ds =>
    let ncode := shiftCode parent ((num : Int) + d)
    match lookupLastWP nieuw ncode with
    | none => tryOffsets nieuw o parent num st ds
    | some nwp =>
      if ¬ ncode ∈ st.matchedNieuw then
        if (o.code, ncode) ∈ st.processed then tryOffsets nieuw o parent num st ds
        else if similarity (strLower o.naam) (strLower nwp.naam) > mkRat 7 10 ∨
            o.naam = nwp.naam then
          { matchedOud := o.code :: st.matchedOud
            matchedNieuw := ncode :: st.matchedNieuw
            processed := (o.code, ncode) :: st.processed
            rows := st.rows ++
              [⟨o.code, o.naam, ncode, nwp.naam, shiftImpact o ncode nwp.naam,
                "7-14"⟩] }
        else tryOffsets nieuw o parent num st ds
      else tryOffsets nieuw o parent num st ds

/-- Phase 2 (`STAP 2`) body for one old werkproces: skip if consumed, parse the
code against the sub-process pattern, then try the six offsets in order. -/
def phase2Step (nieuw : List WP) (st : MatchState) (o : WP) : MatchState :=
  if o.code ∈ st.matchedOud then st
  else
    match parseWpCode o.code with
    | none => st
    | some (parent, num) => tryOffsets nieuw o parent num st [1, 2, 3, -1, -2, -3]

/-- The inner scan of phase 3: the best unconsumed, unprocessed candidate by
lowercased name similarity, starting from the threshold score `0.5`; only a
strictly greater score replaces the current best. -/
def bestCand (nieuw : List WP) (st : MatchState) (o : WP) : Option WP × ℚ :=
  nieuw.foldl (fun acc n =>
    if n.code ∈ st.matchedNieuw then acc
    else if (o.code, n.code) ∈ st.processed then acc
    else
      let score := similarity (strLower o.naam) (strLower n.naam)
      if score > acc.2 then (some n, score) else acc) (none, mkRat 1 2)

/-- Row for an old werkproces with no counterpart (`"Werkproces verwijderd"`). -/
def removedRow (o : WP) : Row :=
  ⟨o.code, o.naam, "-", "-", "Werkproces verwijderd in het nieuwe dossier", "7-14"⟩

/-- Row for a new werkproces with no counterpart (`"Nieuw werkproces"`). -/
def addedRow (n : WP) : Row :=
  ⟨"-", "-", n.code, n.naam, "Nieuw werkproces toegevoegd in het nieuwe dossier", "7-14"⟩

/-- Phase 3 (`STAP 3`) body for one old werkproces: skip if consumed, else
match the best-scoring remaining candidate if any, otherwise emit a removed
row (which does not mark the old code as consumed, as in the source). -/
def phase3Step (nieuw : List WP) (st : MatchState) (o : WP) : MatchState :=
  if o.code ∈ st.matchedOud then st
  else
    match (bestCand nieuw st o).1 with
    | some bm =>
      { matchedOud := o.code :: st.matchedOud
        matchedNieuw := bm.code :: st.matchedNieuw
        processed := (o.code, bm.code) :: st.processed
        rows := st.rows ++
          [⟨o.code, o.naam, bm.code, bm.naam, shiftImpact o bm.code bm.naam, "7-14"⟩] }
    | none => { st with rows := st.rows ++ [removedRow o] }

/-- Phase 4 (`STAP 4`) body for one new werkproces: emit an added row unless
its code was consumed (nothing is marked here, as in the source). -/
def phase4Step (st : MatchState) (n : WP) : MatchState :=
  if n.code ∈ st.matchedNieuw then st
  else { st with rows := st.rows ++ [addedRow n] }

/-- The empty match state installed by `compare_all` before comparing. -/
def initState : MatchState := ⟨[], [], [], []⟩

/-- State after phase 1 (`STAP 1`): fold over the old list in input order. -/
def stPhase1 (oud nieuw : List WP) : MatchState :=
  oud.foldl (phase1Step nieuw) initState

/-- The list `unmatched_oud` of phase 2: the old werkprocessen not yet
consumed after phase 1, sorted ascending by code (Python's stable `sort` by
the code string; `insertionSort` with a total `≤` is likewise stable). -/
def unmatchedSorted (oud nieuw : List WP) : List WP :=
  (oud.filter (fun o => ¬ o.code ∈ (stPhase1 oud nieuw).matchedOud)).insertionSort
    (fun a b => strLe a.code b.code)

/-- State after phase 2 (`STAP 2`). -/
def stPhase2 (oud nieuw : List WP) : MatchState :=
  (unmatchedSorted oud nieuw).foldl (phase2Step nieuw) (stPhase1 oud nieuw)

/-- State after phase 3 (`STAP 3`): fold over the old list in input order. -/
def stPhase3 (oud nieuw : List WP) : MatchState :=
  oud.foldl (phase3Step nieuw) (stPhase2 oud nieuw)

/-- Embedding of `_compare_werkprocessen_improved` from the fresh state
(`compare_all` resets the match state, and no earlier comparison touches it):
phases 1 to 4 in order. -/
def reconcileSt (oud nieuw : List WP) : MatchState :=
  nieuw.foldl phase4Step (stPhase3 oud nieuw)

/-- The rows produced by the werkproces reconciler. -/
def reconcile (oud nieuw : List WP) : List Row :=
  (reconcileSt oud nieuw).rows

/-- Embedding of `_analyze_text_differences`: a fixed, hand-authored summary
keyed by the section type, not a computed diff. -/
def analyzeTextDifferences (old_text new_text section_type : String) : String :=
  if section_type = "context" then
    "In het nieuwe dossier is de context geactualiseerd: meer nadruk op verschillende specialisaties (persoonsbeveiliger, evenementenbeveiliger, etc.), minder nadruk op wettelijke basis (Wpbr) en SVPB-diploma\x27s. Ook is de vermelding van 24/7 dienstverlening toegevoegd in plaats van specifieke tijdstippen."
  else if section_type = "beroepshouding" then
    "De nieuwe beroepshouding is uitgebreider beschreven met meer nadruk op \"slimme interventie\", vroegtijdig signaleren, security awareness, en sociale vaardigheden. Ook is er meer aandacht voor de balans tussen beveiligings- en faciliterende taken."
  else if section_type = "resultaat" then
    "In het nieuwe dossier is het resultaat uitgebreider beschreven met nadruk op vroegtijdig signaleren van dreigingen en risico\x27s, borgen van continuïteit van bedrijfsvoering, en bijdrage aan sociale en maatschappelijke veiligheid."
  else
    "Tekstuele wijzigingen zonder significante impact op de inhoud."

/-- Embedding of `_compare_text_sections`: three rows with both codes `"-"`. -/
def compareTextSections (oud nieuw : DossierData) : List Row :=
  [⟨"-", "Context", "-", "Context",
    analyzeTextDifferences oud.context nieuw.context "context", "6"⟩,
   ⟨"-", "Typerende beroepshouding", "-", "Typerende beroepshouding",
    analyzeTextDifferences oud.beroepshouding nieuw.beroepshouding "beroepshouding", "6-7"⟩,
   ⟨"-", "Resultaat van de beroepsgroep", "-", "Resultaat van de beroepsgroep",
    analyzeTextDifferences oud.resultaat nieuw.resultaat "resultaat", "6-7"⟩]

/-- Embedding of `_find_best_match`: best lowercased similarity over the
candidate list, `("", 0.0)` when the list is empty. -/
def findBestMatch (target : String) (candidates : List String) : String × ℚ :=
  candidates.foldl (fun acc candidate =>
    let score := similarity (strLower target) (strLower candidate)
    if score > acc.2 then (candidate, score) else acc) ("", 0)

/-- Embedding of `_has_similar_item` at the default threshold `0.8`. -/
def hasSimilarItem (target : String) (candidates : List String) : Bool :=
  decide ((findBestMatch target candidates).2 ≥ mkRat 4 5)

/-- The keyword alternation of `_analyze_vakkennis_differences`, in the order
of the regex alternatives. -/
def keywordList : List String :=
  ["integriteit", "ethiek", "conflict", "security", "AVG", "threat", "stress",
   "Engels", "communicatie", "proactief"]

/-- Embedding of `re.findall(alternation, item)`: scan left to right, at each
position try the alternatives in order, consume a match and continue after it.
The fuel argument (the remaining length) keeps the recursion structural. -/
def findKeywordsAux : Nat → List Char → List String
  | 0, _ => []
  | _ + 1, [] => []
  | fuel + 1, c :: rest =>
    match keywordList.find? (fun kw => kw.data.isPrefixOf (c :: rest)) with
    | some kw => kw :: findKeywordsAux fuel ((c :: rest).drop kw.length)
    | none => findKeywordsAux fuel rest

/-- All keyword occurrences found in one item, in scan order. -/
def findKeywords (item : String) : List String :=
  findKeywordsAux item.data.length item.data

/-- Embedding of `_analyze_vakkennis_differences`.  Python collects the found
keywords in a set whose iteration order is unspecified; the model uses
first-found order (`eraseDups` keeps first occurrences). -/
def analyzeVakkennisDifferences (oudUniek nieuwUniek : List String) : String :=
  let keyTerms := (nieuwUniek.foldl (fun acc item => acc ++ findKeywords item) []).eraseDups
  if ¬ keyTerms.isEmpty then
    "Het nieuwe dossier bevat aanvullende vakkennis en vaardigheden, waaronder: " ++
      String.intercalate ", " keyTerms ++
      ". Sommige vaardigheden zijn specifieker beschreven."
  else if ¬ nieuwUniek.isEmpty ∧ oudUniek.isEmpty then
    "Het nieuwe dossier bevat aanvullende vakkennis en vaardigheden. Sommige vaardigheden zijn specifieker beschreven."
  else if ¬ oudUniek.isEmpty ∧ nieuwUniek.isEmpty then
    "Sommige vakkennis en vaardigheden uit het oude dossier zijn verwijderd of anders geformuleerd."
  else if ¬ oudUniek.isEmpty ∧ ¬ nieuwUniek.isEmpty then
    "Zowel toevoegingen als verwijderingen in vakkennis en vaardigheden, met meer nadruk op actuele kennis en vaardigheden in het nieuwe dossier."
  else
    "Geen significante wijzigingen in vakkennis en vaardigheden."

/-- Embedding of `_compare_vakkennis_vaardigheden`: one row with both codes
`"-"` summarising the uniquely-uncovered items of each side. -/
def compareVakkennis (oud nieuw : DossierData) : List Row :=
  let oudUniek := oud.vakkennis_vaardigheden.filter
    (fun item => ¬ hasSimilarItem item nieuw.vakkennis_vaardigheden)
  let nieuwUniek := nieuw.vakkennis_vaardigheden.filter
    (fun item => ¬ hasSimilarItem item oud.vakkennis_vaardigheden)
  [⟨"-", "Vakkennis en vaardigheden", "-", "Vakkennis en vaardigheden",
    analyzeVakkennisDifferences oudUniek nieuwUniek, "7-9"⟩]

/-- The deduplication key of `_remove_duplicates`. -/
def rowKey (r : Row) : String × String × String × String :=
  (r.codering_oud, r.naam_oud, r.codering_nieuw, r.naam_nieuw)

/-- Worker of `_remove_duplicates`: keep the first row of every key. -/
def removeDuplicatesAux : List (String × String × String × String) → List Row → List Row
  | _, [] => []
  | seen, r :: rest =>
    if rowKey r ∈ seen then removeDuplicatesAux seen rest
    else r :: removeDuplicatesAux (rowKey r :: seen) rest

/-- Embedding of `_remove_duplicates`. -/
def removeDuplicates (rows : List Row) : List Row := removeDuplicatesAux [] rows

/-- Embedding of `compare_all`: metadata, kerntaken, werkprocessen, text
sections and vakkennis in order, then deduplication. -/
def compareAll (oud nieuw : DossierData) : List Row :=
  removeDuplicates
    (compareMetadata oud.metadata nieuw.metadata ++
     compareKerntaken oud.kerntaken nieuw.kerntaken ++
     reconcile oud.werkprocessen nieuw.werkprocessen ++
     compareTextSections oud nieuw ++
     compareVakkennis oud nieuw)

/-- A row represents an old entity when its old code and old name are that
entity's code and name. -/
def repOld (e : WP) (r : Row) : Prop :=
  r.codering_oud = e.code ∧ r.naam_oud = e.naam

/-- A row represents a new entity when its new code and new name are that
entity's code and name. -/
def repNew (f : WP) (r : Row) : Prop :=
  r.codering_nieuw = f.code ∧ r.naam_nieuw = f.naam

instance (e : WP) (r : Row) : Decidable (repOld e r) := by
  unfold repOld; infer_instance

instance (f : WP) (r : Row) : Decidable (repNew f r) := by
  unfold repNew; infer_instance

/-- A state transition that emits one match row for the old entity `a` paired
with some new entity: the shared shape of the successful branches of phases 1,
2 and 3. -/
def matchEmit (nieuw : List WP) (st st' : MatchState) (a : WP) : Prop :=
  ∃ n : WP, n ∈ nieuw ∧ ¬ a.code ∈ st.matchedOud ∧ ¬ n.code ∈ st.matchedNieuw ∧
    ∃ imp : String,
      st' = { matchedOud := a.code :: st.matchedOud
              matchedNieuw := n.code :: st.matchedNieuw
              processed := (a.code, n.code) :: st.processed
              rows := st.rows ++ [⟨a.code, a.naam, n.code, n.naam, imp, "7-14"⟩] }

/-- Counting invariant for a fixed old entity: the rows representing it number
one exactly when its code has been consumed. -/
def invOld (e : WP) (st : MatchState) : Prop :=
  st.rows.countP (fun r => decide (repOld e r)) =
    if e.code ∈ st.matchedOud then 1 else 0

/-- Counting invariant for a fixed new entity. -/
def invNew (f : WP) (st : MatchState) : Prop :=
  st.rows.countP (fun r => decide (repNew f r)) =
    if f.code ∈ st.matchedNieuw then 1 else 0

/-! Helper lemmas about the embedded operations. -/

theorem foldl_inv {σ α : Type} (step : σ → α → σ) (I : σ → Prop) :
    ∀ (l : List α) (s : σ), (∀ t a, a ∈ l → I t → I (step t a)) → I s →
      I (l.foldl step s)
  | [], _, _, hs => hs
  | a :: l, s, h, hs =>
    foldl_inv step I l (step s a)
      (fun t b hb => h t b (List.mem_cons_of_mem _ hb))
      (h s a (List.mem_cons_self _ _) hs)

theorem lookupLastWP_mem {l : List WP} {c : String} {w : WP}
    (h : lookupLastWP l c = some w) : w ∈ l := by
  unfold lookupLastWP at h
  exact List.mem_reverse.1 (List.mem_of_find?_eq_some h)

theorem lookupLastWP_code {l : List WP} {c : String} {w : WP}
    (h : lookupLastWP l c = some w) : w.code = c := by
  unfold lookupLastWP at h
  have h2 := List.find?_some h
  simpa using h2

theorem phase1Step_shape (nieuw : List WP) (st : MatchState) (a : WP) :
    phase1Step nieuw st a = st ∨ matchEmit nieuw st (phase1Step nieuw st a) a := by
  unfold phase1Step
  by_cases h : a.code ∈ st.matchedOud
  · left; simp [h]
  · simp only [if_neg h]
    cases hf : nieuw.find? (fun n =>
        decide (n.naam = a.naam ∧ ¬ n.code ∈ st.matchedNieuw ∧
          ¬ (a.code, n.code) ∈ st.processed)) with
    | none => left; rfl
    | some n =>
      right
      have hmem := List.mem_of_find?_eq_some hf
      have hp := List.find?_some hf
      simp only [decide_eq_true_eq] at hp
      exact ⟨n, hmem, h, hp.2.1, _, rfl⟩

theorem shiftValid_spec {nieuw : List WP} {st : MatchState} {a : WP}
    {parent : String} {num : Nat} {d : Int}
    (h : shiftValid nieuw st a parent num d = true) :
    ∃ nwp : WP, lookupLastWP nieuw (shiftCode parent ((num : Int) + d)) = some nwp ∧
      ¬ shiftCode parent ((num : Int) + d) ∈ st.matchedNieuw ∧
      ¬ (a.code, shiftCode parent ((num : Int) + d)) ∈ st.processed ∧
      (similarity (strLower a.naam) (strLower nwp.naam) > mkRat 7 10 ∨
        a.naam = nwp.naam) := by
  cases hl : lookupLastWP nieuw (shiftCode parent ((num : Int) + d)) with
  | none =>
    exfalso
    simp only [shiftValid, hl] at h
    exact Bool.noConfusion h
  | some nwp =>
    simp only [shiftValid, hl, Bool.and_eq_true, Bool.or_eq_true,
      decide_eq_true_eq] at h
    exact ⟨nwp, rfl, h.1.1, h.1.2, h.2⟩

theorem tryOffsets_eq_find (nieuw : List WP) (a : WP) (parent : String) (num : Nat) :
    ∀ (ds : List Int) (st : MatchState),
      tryOffsets nieuw a parent num st ds =
        (match ds.find? (shiftValid nieuw st a parent num) with
          | none => st
          | some d => emitShift nieuw st a parent num d) := by
  intro ds
  induction ds with
  | nil => intro st; rfl
  | cons d ds ih =>
    intro st
    by_cases hv : shiftValid nieuw st a parent num d = true
    · obtain ⟨nwp, hl, h1, h2, h3⟩ := shiftValid_spec hv
      have hT : tryOffsets nieuw a parent num st (d :: ds) =
          emitShift nieuw st a parent num d := by
        simp only [tryOffsets, hl, if_pos h1, if_neg h2, if_pos h3, emitShift]
      rw [hT, List.find?_cons, hv]
    · have hv' : shiftValid nieuw st a parent num d = false :=
        Bool.eq_false_iff.mpr hv
      have hT : tryOffsets nieuw a parent num st (d :: ds) =
          tryOffsets nieuw a parent num st ds := by
        cases hl : lookupLastWP nieuw (shiftCode parent ((num : Int) + d)) with
        | none => simp only [tryOffsets, hl]
        | some nwp =>
          by_cases h1 : shiftCode parent ((num : Int) + d) ∈ st.matchedNieuw
          · simp only [tryOffsets, hl, if_neg (not_not_intro h1)]
          · by_cases h2 : (a.code, shiftCode parent ((num : Int) + d)) ∈ st.processed
            · simp only [tryOffsets, hl, if_pos h1, if_pos h2]
            · have h3 : ¬ (similarity (strLower a.naam) (strLower nwp.naam) > mkRat 7 10 ∨
                  a.naam = nwp.naam) := by
                intro h3
                apply hv
                simp only [shiftValid, hl, Bool.and_eq_true, Bool.or_eq_true,
                  decide_eq_true_eq]
                exact ⟨⟨h1, h2⟩, h3⟩
              simp only [tryOffsets, hl, if_pos h1, if_neg h2, if_neg h3]
      rw [hT, List.find?_cons, hv', ih st]

theorem emitShift_matchEmit {nieuw : List WP} {st : MatchState} {a : WP}
    {parent : String} {num : Nat} {d : Int}
    (hmo : ¬ a.code ∈ st.matchedOud)
    (hv : shiftValid nieuw st a parent num d = true) :
    matchEmit nieuw st (emitShift nieuw st a parent num d) a := by
  obtain ⟨nwp, hl, h1, h2, _⟩ := shiftValid_spec hv
  refine ⟨nwp, lookupLastWP_mem hl, hmo, ?_,
    shiftImpact a (shiftCode parent ((num : Int) + d)) nwp.naam, ?_⟩
  · rw [lookupLastWP_code hl]; exact h1
  · simp only [emitShift, hl]
    rw [lookupLastWP_code hl]

theorem phase2Step_shape (nieuw : List WP) (st : MatchState) (a : WP) :
    phase2Step nieuw st a = st ∨ matchEmit nieuw st (phase2Step nieuw st a) a := by
  unfold phase2Step
  by_cases h : a.code ∈ st.matchedOud
  · left; simp [h]
  · simp only [if_neg h]
    cases hp : parseWpCode a.code with
    | none => left; rfl
    | some pr =>
      obtain ⟨parent, num⟩ := pr
      show tryOffsets nieuw a parent num st [1, 2, 3, -1, -2, -3] = st ∨
        matchEmit nieuw st (tryOffsets nieuw a parent num st [1, 2, 3, -1, -2, -3]) a
      rw [tryOffsets_eq_find nieuw a parent num _ st]
      cases hf : [(1 : Int), 2, 3, -1, -2, -3].find? (shiftValid nieuw st a parent num) with
      | none => left; rfl
      | some d =>
        right
        exact emitShift_matchEmit h (List.find?_some hf)

theorem bestCand_some (nieuw : List WP) (st : MatchState) (o : WP) :
    ∀ bm : WP, (bestCand nieuw st o).1 = some bm →
      bm ∈ nieuw ∧ ¬ bm.code ∈ st.matchedNieuw := by
  have h := foldl_inv
    (fun acc n =>
      if n.code ∈ st.matchedNieuw then acc
      else if (o.code, n.code) ∈ st.processed then acc
      else
        let score := similarity (strLower o.naam) (strLower n.naam)
        if score > acc.2 then (some n, score) else acc)
    (fun acc : Option WP × ℚ => ∀ x, acc.1 = some x →
      x ∈ nieuw ∧ ¬ x.code ∈ st.matchedNieuw)
    nieuw (none, mkRat 1 2)
    (by
      intro t a ha hI x hx
      by_cases h1 : a.code ∈ st.matchedNieuw
      · simp only [if_pos h1] at hx; exact hI x hx
      · simp only [if_neg h1] at hx
        by_cases h2 : (o.code, a.code) ∈ st.processed
        · simp only [if_pos h2] at hx; exact hI x hx
        · simp only [if_neg h2] at hx
          by_cases h3 : similarity (strLower o.naam) (strLower a.naam) > t.2
          · simp only [if_pos h3] at hx
            cases hx; exact ⟨ha, h1⟩
          · simp only [if_neg h3] at hx; exact hI x hx)
    (by intro x hx; cases hx)
  exact h

theorem phase3Step_shape (nieuw : List WP) (st : MatchState) (a : WP) :
    (phase3Step nieuw st a = st ∧ a.code ∈ st.matchedOud) ∨
      matchEmit nieuw st (phase3Step nieuw st a) a ∨
      (¬ a.code ∈ st.matchedOud ∧
        phase3Step nieuw st a = { st with rows := st.rows ++ [removedRow a] }) := by
  unfold phase3Step
  by_cases h : a.code ∈ st.matchedOud
  · left; exact ⟨by simp [h], h⟩
  · simp only [if_neg h]
    cases hb : (bestCand nieuw st a).1 with
    | none => right; right; exact ⟨h, rfl⟩
    | some bm =>
      right; left
      obtain ⟨hmem, hmn⟩ := bestCand_some nieuw st a bm hb
      exact ⟨bm, hmem, h, hmn, _, rfl⟩

theorem phase4Step_shape (st : MatchState) (n : WP) :
    (phase4Step st n = st ∧ n.code ∈ st.matchedNieuw) ∨
      (¬ n.code ∈ st.matchedNieuw ∧
        phase4Step st n = { st with rows := st.rows ++ [addedRow n] }) := by
  unfold phase4Step
  by_cases h : n.code ∈ st.matchedNieuw
  · left; exact ⟨by simp [h], h⟩
  · right; exact ⟨h, by simp [h]⟩

theorem countP_snoc (p : Row → Bool) (l : List Row) (r : Row) :
    (l ++ [r]).countP p = l.countP p + (if p r = true then 1 else 0) := by
  simp [List.countP_append, List.countP_cons]

theorem invOld_init (e : WP) : invOld e initState := by
  simp [invOld, initState]

theorem invNew_init (f : WP) : invNew f initState := by
  simp [invNew, initState]

theorem decide_repOld_true {e : WP} {r : Row}
    (h1 : r.codering_oud = e.code) (h2 : r.naam_oud = e.naam) :
    decide (repOld e r) = true := decide_eq_true ⟨h1, h2⟩

theorem decide_repOld_false {e : WP} {r : Row}
    (h : ¬ r.codering_oud = e.code) : decide (repOld e r) = false :=
  decide_eq_false (fun hp => h hp.1)

theorem decide_repNew_true {f : WP} {r : Row}
    (h1 : r.codering_nieuw = f.code) (h2 : r.naam_nieuw = f.naam) :
    decide (repNew f r) = true := decide_eq_true ⟨h1, h2⟩

theorem decide_repNew_false {f : WP} {r : Row}
    (h : ¬ r.codering_nieuw = f.code) : decide (repNew f r) = false :=
  decide_eq_false (fun hp => h hp.1)

theorem mem_cons_iff_of_ne {x y : String} {l : List String} (h : ¬ x = y) :
    (x ∈ y :: l) ↔ x ∈ l := by
  rw [List.mem_cons]
  exact or_iff_right h

theorem invOld_matchEmit {nieuw : List WP} {st st' : MatchState} {a e : WP}
    (Ha : a.code = e.code → a = e) (hI : invOld e st)
    (hm : matchEmit nieuw st st' a) : invOld e st' := by
  obtain ⟨n, _, hmo, _, imp, rfl⟩ := hm
  unfold invOld at hI ⊢
  rw [countP_snoc]
  by_cases hc : a.code = e.code
  · obtain rfl : a = e := Ha hc
    rw [decide_repOld_true rfl rfl, hI, if_neg hmo]
    simp [List.mem_cons]
  · rw [decide_repOld_false hc, hI,
      if_congr (mem_cons_iff_of_ne (fun h => hc h.symm)) rfl rfl]
    simp

theorem invOld_removedEmit {st st' : MatchState} {a e : WP}
    (ha : ¬ a.code = e.code) (hI : invOld e st)
    (hred : st' = { st with rows := st.rows ++ [removedRow a] }) : invOld e st' := by
  subst hred
  unfold invOld at hI ⊢
  rw [countP_snoc, decide_repOld_false (r := removedRow a) ha]
  simpa using hI

theorem invOld_phase1 {nieuw : List WP} {st : MatchState} {a e : WP}
    (Ha : a.code = e.code → a = e) (hI : invOld e st) :
    invOld e (phase1Step nieuw st a) := by
  rcases phase1Step_shape nieuw st a with h | h
  · rw [h]; exact hI
  · exact invOld_matchEmit Ha hI h

theorem invOld_phase2 {nieuw : List WP} {st : MatchState} {a e : WP}
    (Ha : a.code = e.code → a = e) (hI : invOld e st) :
    invOld e (phase2Step nieuw st a) := by
  rcases phase2Step_shape nieuw st a with h | h
  · rw [h]; exact hI
  · exact invOld_matchEmit Ha hI h

theorem invOld_phase3_ne {nieuw : List WP} {st : MatchState} {a e : WP}
    (ha : ¬ a.code = e.code) (hI : invOld e st) :
    invOld e (phase3Step nieuw st a) := by
  rcases phase3Step_shape nieuw st a with ⟨h, _⟩ | h | ⟨_, h⟩
  · rw [h]; exact hI
  · exact invOld_matchEmit (fun hc => absurd hc ha) hI h
  · exact invOld_removedEmit ha hI h

/-- The phase-3 step at the entity itself always leaves exactly one
representing row, whether it was consumed before, is matched now, or is
emitted as removed. -/
theorem countOld_phase3_self {nieuw : List WP} {st : MatchState} {e : WP}
    (hI : invOld e st) :
    (phase3Step nieuw st e).rows.countP (fun r => decide (repOld e r)) = 1 := by
  rcases phase3Step_shape nieuw st e with ⟨h, hmem⟩ | h | ⟨hmem, h⟩
  · rw [h]
    unfold invOld at hI
    rw [hI, if_pos hmem]
  · obtain ⟨n, _, hmo, _, imp, hst⟩ := h
    have h0 : st.rows.countP (fun r => decide (repOld e r)) = 0 := by
      unfold invOld at hI; rw [hI, if_neg hmo]
    rw [hst]
    show (st.rows ++ _).countP _ = 1
    rw [countP_snoc, decide_repOld_true rfl rfl, h0]
    simp
  · have h0 : st.rows.countP (fun r => decide (repOld e r)) = 0 := by
      unfold invOld at hI; rw [hI, if_neg hmem]
    rw [h]
    show (st.rows ++ _).countP _ = 1
    rw [countP_snoc, decide_repOld_true rfl rfl, h0]
    simp

theorem countOld_phase3_ne {nieuw : List WP} {st : MatchState} {a e : WP}
    (ha : ¬ a.code = e.code) :
    (phase3Step nieuw st a).rows.countP (fun r => decide (repOld e r)) =
      st.rows.countP (fun r => decide (repOld e r)) := by
  rcases phase3Step_shape nieuw st a with ⟨h, _⟩ | h | ⟨_, h⟩
  · rw [h]
  · obtain ⟨n, _, _, _, imp, hst⟩ := h
    rw [hst]
    show (st.rows ++ _).countP _ = _
    rw [countP_snoc, decide_repOld_false ha]
    simp
  · rw [h]
    show (st.rows ++ _).countP _ = _
    rw [countP_snoc, decide_repOld_false (r := removedRow a) ha]
    simp

theorem countOld_phase4 {st : MatchState} {n : WP} {e : WP}
    (he : ¬ e.code = "-") :
    (phase4Step st n).rows.countP (fun r => decide (repOld e r)) =
      st.rows.countP (fun r => decide (repOld e r)) := by
  rcases phase4Step_shape st n with ⟨h, _⟩ | ⟨_, h⟩
  · rw [h]
  · rw [h]
    show (st.rows ++ _).countP _ = _
    rw [countP_snoc, decide_repOld_false (r := addedRow n) (fun hx => he hx.symm)]
    simp

theorem invNew_matchEmit {nieuw : List WP} {st st' : MatchState} {a : WP} {f : WP}
    (Hf : ∀ n ∈ nieuw, n.code = f.code → n = f) (hI : invNew f st)
    (hm : matchEmit nieuw st st' a) : invNew f st' := by
  obtain ⟨n, hn, _, hmn, imp, rfl⟩ := hm
  unfold invNew at hI ⊢
  rw [countP_snoc]
  by_cases hc : n.code = f.code
  · obtain rfl : n = f := Hf n hn hc
    rw [decide_repNew_true rfl rfl, hI, if_neg hmn]
    simp [List.mem_cons]
  · rw [decide_repNew_false hc, hI,
      if_congr (mem_cons_iff_of_ne (fun h => hc h.symm)) rfl rfl]
    simp

theorem invNew_removedEmit {st st' : MatchState} {a : WP} {f : WP}
    (hf : ¬ f.code = "-") (hI : invNew f st)
    (hred : st' = { st with rows := st.rows ++ [removedRow a] }) : invNew f st' := by
  subst hred
  unfold invNew at hI ⊢
  rw [countP_snoc, decide_repNew_false (r := removedRow a) (fun hx => hf hx.symm)]
  simpa using hI

theorem invNew_phase1 {nieuw : List WP} {st : MatchState} {a : WP} {f : WP}
    (Hf : ∀ n ∈ nieuw, n.code = f.code → n = f) (hI : invNew f st) :
    invNew f (phase1Step nieuw st a) := by
  rcases phase1Step_shape nieuw st a with h | h
  · rw [h]; exact hI
  · exact invNew_matchEmit Hf hI h

theorem invNew_phase2 {nieuw : List WP} {st : MatchState} {a : WP} {f : WP}
    (Hf : ∀ n ∈ nieuw, n.code = f.code → n = f) (hI : invNew f st) :
    invNew f (phase2Step nieuw st a) := by
  rcases phase2Step_shape nieuw st a with h | h
  · rw [h]; exact hI
  · exact invNew_matchEmit Hf hI h

theorem invNew_phase3 {nieuw : List WP} {st : MatchState} {a : WP} {f : WP}
    (Hf : ∀ n ∈ nieuw, n.code = f.code → n = f) (hf : ¬ f.code = "-")
    (hI : invNew f st) : invNew f (phase3Step nieuw st a) := by
  rcases phase3Step_shape nieuw st a with ⟨h, _⟩ | h | ⟨_, h⟩
  · rw [h]; exact hI
  · exact invNew_matchEmit Hf hI h
  · exact invNew_removedEmit hf hI h

theorem invNew_phase4_ne {st : MatchState} {n : WP} {f : WP}
    (hne : ¬ n.code = f.code) (hI : invNew f st) :
    invNew f (phase4Step st n) := by
  rcases phase4Step_shape st n with ⟨h, _⟩ | ⟨_, h⟩
  · rw [h]; exact hI
  · rw [h]
    unfold invNew at hI ⊢
    rw [countP_snoc, decide_repNew_false (r := addedRow n) hne]
    simpa using hI

theorem countNew_phase4_self {st : MatchState} {f : WP} (hI : invNew f st) :
    (phase4Step st f).rows.countP (fun r => decide (repNew f r)) = 1 := by
  rcases phase4Step_shape st f with ⟨h, hmem⟩ | ⟨hmem, h⟩
  · rw [h]
    unfold invNew at hI
    rw [hI, if_pos hmem]
  · have h0 : st.rows.countP (fun r => decide (repNew f r)) = 0 := by
      unfold invNew at hI; rw [hI, if_neg hmem]
    rw [h]
    show (st.rows ++ _).countP _ = 1
    rw [countP_snoc, decide_repNew_true rfl rfl, h0]
    simp

theorem countNew_phase4_ne {st : MatchState} {n : WP} {f : WP}
    (hne : ¬ n.code = f.code) :
    (phase4Step st n).rows.countP (fun r => decide (repNew f r)) =
      st.rows.countP (fun r => decide (repNew f r)) := by
  rcases phase4Step_shape st n with ⟨h, _⟩ | ⟨_, h⟩
  · rw [h]
  · rw [h]
    show (st.rows ++ _).countP _ = _
    rw [countP_snoc, decide_repNew_false (r := addedRow n) hne]
    simp

/-- Phases 3 and 4 leave exactly one row for an old entity whose code is
unique in the old list, starting from any state satisfying the counting
invariant. -/
theorem countOld_full {nieuw : List WP} (e : WP) (st : MatchState)
    (l₁ l₂ : List WP)
    (h₁ : ∀ a ∈ l₁, ¬ a.code = e.code) (h₂ : ∀ a ∈ l₂, ¬ a.code = e.code)
    (he : ¬ e.code = "-") (hI : invOld e st) (ns : List WP) :
    (ns.foldl phase4Step ((l₁ ++ e :: l₂).foldl (phase3Step nieuw) st)).rows.countP
      (fun r => decide (repOld e r)) = 1 := by
  rw [List.foldl_append, List.foldl_cons]
  have I1 : invOld e (l₁.foldl (phase3Step nieuw) st) :=
    foldl_inv _ (invOld e) l₁ st
      (fun t a ha hI' => invOld_phase3_ne (h₁ a ha) hI') hI
  have C1 : (phase3Step nieuw (l₁.foldl (phase3Step nieuw) st) e).rows.countP
      (fun r => decide (repOld e r)) = 1 := countOld_phase3_self I1
  have C2 := foldl_inv (phase3Step nieuw)
    (fun st' => st'.rows.countP (fun r => decide (repOld e r)) = 1) l₂ _
    (fun t a ha hc => (countOld_phase3_ne (h₂ a ha)).trans hc) C1
  exact foldl_inv phase4Step
    (fun st' => st'.rows.countP (fun r => decide (repOld e r)) = 1) ns _
    (fun t a _ hc => (countOld_phase4 he).trans hc) C2

/-- Phase 4 leaves exactly one row for a new entity whose code is unique in
the new list, starting from any state satisfying the counting invariant. -/
theorem countNew_full (f : WP) (st : MatchState) (m₁ m₂ : List WP)
    (h₁ : ∀ n ∈ m₁, ¬ n.code = f.code) (h₂ : ∀ n ∈ m₂, ¬ n.code = f.code)
    (hI : invNew f st) :
    ((m₁ ++ f :: m₂).foldl phase4Step st).rows.countP
      (fun r => decide (repNew f r)) = 1 := by
  rw [List.foldl_append, List.foldl_cons]
  have J1 : invNew f (m₁.foldl phase4Step st) :=
    foldl_inv _ (invNew f) m₁ st
      (fun t n hn hI' => invNew_phase4_ne (h₁ n hn) hI') hI
  have C1 : (phase4Step (m₁.foldl phase4Step st) f).rows.countP
      (fun r => decide (repNew f r)) = 1 := countNew_phase4_self J1
  exact foldl_inv phase4Step
    (fun st' => st'.rows.countP (fun r => decide (repNew f r)) = 1) m₂ _
    (fun t n hn hc => (countNew_phase4_ne (h₂ n hn)).trans hc) C1

/-- C1 (counterexample): the coverage invariant fails as stated.  Consumption
is tracked per code string, so with a duplicated old code the second old
entity is skipped by every phase and appears in no output row: here old
`[{A1, x}, {A1, y}]` against new `[{A1, x}]` yields a single row and the old
entity `{A1, y}` is represented zero times, not exactly once. -/
theorem c1_counterexample :
    (⟨"A1", "y"⟩ : WP) ∈ ([⟨"A1", "x"⟩, ⟨"A1", "y"⟩] : List WP) ∧
    (reconcile [⟨"A1", "x"⟩, ⟨"A1", "y"⟩] [⟨"A1", "x"⟩]).countP
      (fun r => decide (repOld ⟨"A1", "y"⟩ r)) = 0 ∧
    reconcile [⟨"A1", "x"⟩, ⟨"A1", "y"⟩] [⟨"A1", "x"⟩] =
      [⟨"A1", "x", "A1", "x", "Geen wijziging in naam of codering", "7-14"⟩] := by
  refine ⟨?_, ?_, ?_⟩ <;> decide

/-- C1 (amended): when the codes within the old list are pairwise distinct,
the codes within the new list are pairwise distinct, and no entity carries the
sentinel code `"-"`, the reconciler's output represents every old entity in
exactly one row (matched or removed) and every new entity in exactly one row
(matched or added). -/
theorem c1_coverage (oud nieuw : List WP)
    (hO : (oud.map WP.code).Nodup) (hN : (nieuw.map WP.code).Nodup)
    (hOd : ¬ "-" ∈ oud.map WP.code) (hNd : ¬ "-" ∈ nieuw.map WP.code) :
    (∀ e ∈ oud, (reconcile oud nieuw).countP (fun r => decide (repOld e r)) = 1) ∧
    (∀ f ∈ nieuw, (reconcile oud nieuw).countP (fun r => decide (repNew f r)) = 1) := by
  have hsub : ∀ a ∈ unmatchedSorted oud nieuw, a ∈ oud := by
    intro a ha
    exact (List.mem_filter.1 ((List.mem_insertionSort _).1 ha)).1
  constructor
  · intro e he
    have Ha : ∀ a ∈ oud, a.code = e.code → a = e := fun a ha hc =>
      List.inj_on_of_nodup_map hO ha he hc
    have hecode : ¬ e.code = "-" := fun h =>
      hOd (h ▸ List.mem_map_of_mem WP.code he)
    have I1 : invOld e (stPhase1 oud nieuw) :=
      foldl_inv _ (invOld e) oud initState
        (fun t a ha hI => invOld_phase1 (Ha a ha) hI) (invOld_init e)
    have I2 : invOld e (stPhase2 oud nieuw) :=
      foldl_inv _ (invOld e) (unmatchedSorted oud nieuw) (stPhase1 oud nieuw)
        (fun t a ha hI => invOld_phase2 (Ha a (hsub a ha)) hI) I1
    obtain ⟨l₁, l₂, hsplit⟩ := List.append_of_mem he
    rw [hsplit, List.map_append, List.map_cons] at hO
    have hparts := List.nodup_append.1 hO
    have h₁ : ∀ a ∈ l₁, ¬ a.code = e.code := fun a ha hc =>
      hparts.2.2 (hc ▸ List.mem_map_of_mem WP.code ha) (List.mem_cons_self _ _)
    have h₂ : ∀ a ∈ l₂, ¬ a.code = e.code := fun a ha hc =>
      (List.nodup_cons.1 hparts.2.1).1 (hc ▸ List.mem_map_of_mem WP.code ha)
    have hre : reconcile oud nieuw =
        (nieuw.foldl phase4Step (oud.foldl (phase3Step nieuw) (stPhase2 oud nieuw))).rows := rfl
    rw [hsplit] at I2
    rw [hre, hsplit]
    exact countOld_full e _ l₁ l₂ h₁ h₂ hecode I2 nieuw
  · intro f hf
    have Hf : ∀ n ∈ nieuw, n.code = f.code → n = f := fun n hn hc =>
      List.inj_on_of_nodup_map hN hn hf hc
    have hfcode : ¬ f.code = "-" := fun h =>
      hNd (h ▸ List.mem_map_of_mem WP.code hf)
    have I1 : invNew f (stPhase1 oud nieuw) :=
      foldl_inv _ (invNew f) oud initState
        (fun t a _ hI => invNew_phase1 Hf hI) (invNew_init f)
    have I2 : invNew f (stPhase2 oud nieuw) :=
      foldl_inv _ (invNew f) (unmatchedSorted oud nieuw) (stPhase1 oud nieuw)
        (fun t a _ hI => invNew_phase2 Hf hI) I1
    have I3 : invNew f (stPhase3 oud nieuw) :=
      foldl_inv _ (invNew f) oud (stPhase2 oud nieuw)
        (fun t a _ hI => invNew_phase3 Hf hfcode hI) I2
    obtain ⟨m₁, m₂, hsplit⟩ := List.append_of_mem hf
    rw [hsplit, List.map_append, List.map_cons] at hN
    have hparts := List.nodup_append.1 hN
    have h₁ : ∀ n ∈ m₁, ¬ n.code = f.code := fun n hn hc =>
      hparts.2.2 (hc ▸ List.mem_map_of_mem WP.code hn) (List.mem_cons_self _ _)
    have h₂ : ∀ n ∈ m₂, ¬ n.code = f.code := fun n hn hc =>
      (List.nodup_cons.1 hparts.2.1).1 (hc ▸ List.mem_map_of_mem WP.code hn)
    have hre : reconcile oud nieuw =
        (nieuw.foldl phase4Step (stPhase3 oud nieuw)).rows := rfl
    rw [hsplit] at I3
    rw [hre, hsplit]
    exact countNew_full f _ m₁ m₂ h₁ h₂ I3

theorem foldl_fix {σ α : Type} (step : σ → α → σ) :
    ∀ (l : List α) (s : σ), (∀ t a, a ∈ l → step t a = t) → l.foldl step s = s
  | [], _, _ => rfl
  | a :: l, s, h => by
    rw [List.foldl_cons, h s a (List.mem_cons_self _ _)]
    exact foldl_fix step l s (fun t b hb => h t b (List.mem_cons_of_mem _ hb))

theorem phase1Step_nil (st : MatchState) (o : WP) : phase1Step [] st o = st := by
  unfold phase1Step
  by_cases h : o.code ∈ st.matchedOud
  · simp [h]
  · simp [h]

theorem tryOffsets_nil (o : WP) (parent : String) (num : Nat) :
    ∀ (ds : List Int) (st : MatchState), tryOffsets [] o parent num st ds = st
  | [], _ => rfl
  | d :: ds, st => by
    have hl : lookupLastWP [] (shiftCode parent ((num : Int) + d)) = none := rfl
    have hT : tryOffsets [] o parent num st (d :: ds) =
        tryOffsets [] o parent num st ds := by
      simp only [tryOffsets, hl]
    rw [hT]
    exact tryOffsets_nil o parent num ds st

theorem phase2Step_nil (st : MatchState) (o : WP) : phase2Step [] st o = st := by
  unfold phase2Step
  by_cases h : o.code ∈ st.matchedOud
  · simp [h]
  · simp only [if_neg h]
    cases hp : parseWpCode o.code with
    | none => rfl
    | some pr =>
      obtain ⟨parent, num⟩ := pr
      exact tryOffsets_nil o parent num [1, 2, 3, -1, -2, -3] st

theorem phase3Step_nil (st : MatchState) (o : WP) :
    phase3Step [] st o =
      if o.code ∈ st.matchedOud then st
      else { st with rows := st.rows ++ [removedRow o] } := by
  unfold phase3Step
  by_cases h : o.code ∈ st.matchedOud
  · simp [h]
  · simp only [if_neg h]
    rfl

theorem phase3_fold_removed : ∀ (os : List WP) (st : MatchState),
    st.matchedOud = [] →
    (os.foldl (phase3Step []) st).rows = st.rows ++ os.map removedRow := by
  intro os
  induction os with
  | nil => intro st _; simp
  | cons o os ih =>
    intro st h
    rw [List.foldl_cons, phase3Step_nil,
      if_neg (by rw [h]; exact List.not_mem_nil _)]
    rw [ih { st with rows := st.rows ++ [removedRow o] } h]
    simp

theorem phase4_fold_added : ∀ (ns : List WP) (st : MatchState),
    st.matchedNieuw = [] →
    (ns.foldl phase4Step st).rows = st.rows ++ ns.map addedRow := by
  intro ns
  induction ns with
  | nil => intro st _; simp
  | cons n ns ih =>
    intro st h
    have hstep : phase4Step st n = { st with rows := st.rows ++ [addedRow n] } := by
      unfold phase4Step
      rw [if_neg (by rw [h]; exact List.not_mem_nil _)]
    rw [List.foldl_cons, hstep, ih { st with rows := st.rows ++ [addedRow n] } h]
    simp

/-- C7: reconciling with an empty side never fails and degenerates to pure
residue: an empty new list yields exactly the removed rows of the old list in
order, an empty old list yields exactly the added rows of the new list in
order, and two empty lists yield no rows at all. -/
theorem c7_empty_lists (os ns : List WP) :
    reconcile os [] = os.map removedRow ∧
    reconcile [] ns = ns.map addedRow ∧
    reconcile ([] : List WP) ([] : List WP) = ([] : List Row) := by
  refine ⟨?_, ?_, rfl⟩
  · have h1 : stPhase1 os [] = initState :=
      foldl_fix _ os initState (fun t a _ => phase1Step_nil t a)
    have h2 : stPhase2 os [] = initState := by
      unfold stPhase2
      rw [foldl_fix _ _ _ (fun t a _ => phase2Step_nil t a), h1]
    have hre : reconcile os [] = (os.foldl (phase3Step []) (stPhase2 os [])).rows := rfl
    rw [hre, h2, phase3_fold_removed os initState rfl]
    rfl
  · have hre : reconcile [] ns = (ns.foldl phase4Step initState).rows := rfl
    rw [hre, phase4_fold_added ns initState rfl]
    rfl

/-- Rows present after a step that cannot have matched the already-consumed
new code `c`: every row is either an old row or pairs a different new code. -/
theorem fresh_of_shape {nieuw : List WP} {st st' : MatchState} {a : WP} {c : String}
    (hc : c ∈ st.matchedNieuw) (hcd : ¬ c = "-")
    (hs : st' = st ∨ matchEmit nieuw st st' a ∨
      st' = { st with rows := st.rows ++ [removedRow a] }) :
    ∀ r ∈ st'.rows, r ∈ st.rows ∨ ¬ r.codering_nieuw = c := by
  rcases hs with h | h | h
  · intro r hr
    rw [h] at hr
    exact Or.inl hr
  · obtain ⟨n, _, _, hmn, imp, heq⟩ := h
    intro r hr
    rw [heq] at hr
    rcases List.mem_append.1 hr with h1 | h1
    · exact Or.inl h1
    · right
      rw [List.mem_singleton.1 h1]
      exact fun hx => hmn (by rw [show n.code = c from hx]; exact hc)
  · intro r hr
    rw [h] at hr
    rcases List.mem_append.1 hr with h1 | h1
    · exact Or.inl h1
    · right
      rw [List.mem_singleton.1 h1]
      exact fun hx => hcd hx.symm

/-- C10: the reconciler identifies entities purely by their code string when
tracking consumption.  An old entity whose code is already consumed is skipped
(state unchanged) by phases 1, 2 and 3 — including the phase-3 removed-row
residue — whatever its name; a consumed new code is skipped by the phase-4
residue, and no row emitted by phases 1, 2 or 3 from such a state can pair
that new code again. -/
theorem c10_code_consumption (nieuw : List WP) (st : MatchState) (o : WP) (c : String) :
    (o.code ∈ st.matchedOud →
      phase1Step nieuw st o = st ∧ phase2Step nieuw st o = st ∧
        phase3Step nieuw st o = st) ∧
    (c ∈ st.matchedNieuw → ¬ c = "-" →
      (∀ n : WP, n.code = c → phase4Step st n = st) ∧
      (∀ r ∈ (phase1Step nieuw st o).rows, r ∈ st.rows ∨ ¬ r.codering_nieuw = c) ∧
      (∀ r ∈ (phase2Step nieuw st o).rows, r ∈ st.rows ∨ ¬ r.codering_nieuw = c) ∧
      (∀ r ∈ (phase3Step nieuw st o).rows, r ∈ st.rows ∨ ¬ r.codering_nieuw = c)) := by
  constructor
  · intro h
    refine ⟨?_, ?_, ?_⟩
    · unfold phase1Step; rw [if_pos h]
    · unfold phase2Step; rw [if_pos h]
    · unfold phase3Step; rw [if_pos h]
  · intro hc hcd
    refine ⟨?_, ?_, ?_, ?_⟩
    · intro n hn
      unfold phase4Step
      rw [if_pos (by rw [hn]; exact hc)]
    · exact fresh_of_shape hc hcd
        ((phase1Step_shape nieuw st o).imp id Or.inl)
    · exact fresh_of_shape hc hcd
        ((phase2Step_shape nieuw st o).imp id Or.inl)
    · rcases phase3Step_shape nieuw st o with ⟨h, _⟩ | h | ⟨_, h⟩
      · exact @fresh_of_shape nieuw st (phase3Step nieuw st o) o c hc hcd (Or.inl h)
      · exact @fresh_of_shape nieuw st (phase3Step nieuw st o) o c hc hcd (Or.inr (Or.inl h))
      · exact @fresh_of_shape nieuw st (phase3Step nieuw st o) o c hc hcd (Or.inr (Or.inr h))

/-- C10 (witness): the consumption theorem applied to a concrete state in
which old code `A1` and new code `B1` are already consumed. -/
theorem c10_code_consumption_witness :
    phase1Step [⟨"B1", "y"⟩] ⟨["A1"], ["B1"], [], []⟩ ⟨"A1", "x"⟩ =
      ⟨["A1"], ["B1"], [], []⟩ ∧
    phase4Step ⟨["A1"], ["B1"], [], []⟩ ⟨"B1", "z"⟩ = ⟨["A1"], ["B1"], [], []⟩ :=
  ⟨((c10_code_consumption [⟨"B1", "y"⟩] ⟨["A1"], ["B1"], [], []⟩ ⟨"A1", "x"⟩
      "B1").1 (by decide)).1,
   (((c10_code_consumption [⟨"B1", "y"⟩] ⟨["A1"], ["B1"], [], []⟩ ⟨"A1", "x"⟩
      "B1").2 (by decide) (by decide)).1 ⟨"B1", "z"⟩ rfl)⟩

theorem find?_congr_pred {α : Type} (p q : α → Bool) (h : ∀ x, p x = q x) :
    ∀ l : List α, l.find? p = l.find? q
  | [] => rfl
  | a :: l => by
    rw [List.find?_cons, List.find?_cons, h a]
    cases hqa : q a with
    | true => rfl
    | false => exact find?_congr_pred p q h l

/-- The successful phase-1 step: when the old entity is unconsumed and `n` is
the first new entity with exactly the same name that is unconsumed and
unprocessed, phase 1 matches them regardless of codes, emitting the unchanged
impact for equal codes and the bare re-code template (no rename clause)
otherwise. -/
theorem phase1Step_match {nieuw : List WP} {st : MatchState} {o n : WP}
    (hmo : ¬ o.code ∈ st.matchedOud)
    (hfind : nieuw.find? (fun x =>
      decide (x.naam = o.naam ∧ ¬ x.code ∈ st.matchedNieuw ∧
        ¬ (o.code, x.code) ∈ st.processed)) = some n) :
    phase1Step nieuw st o =
      { matchedOud := o.code :: st.matchedOud
        matchedNieuw := n.code :: st.matchedNieuw
        processed := (o.code, n.code) :: st.processed
        rows := st.rows ++
          [⟨o.code, o.naam, n.code, n.naam,
            if o.code = n.code then "Geen wijziging in naam of codering"
            else recodeMsg o.code n.code, "7-14"⟩] } := by
  unfold phase1Step
  rw [if_neg hmo, hfind]

theorem phase1Step_rows_extend (nieuw : List WP) (st : MatchState) (a : WP) :
    ∃ t, (phase1Step nieuw st a).rows = st.rows ++ t := by
  rcases phase1Step_shape nieuw st a with h | h
  · exact ⟨[], by rw [h]; simp⟩
  · obtain ⟨n, _, _, _, imp, heq⟩ := h
    exact ⟨_, by rw [heq]⟩

theorem phase2Step_rows_extend (nieuw : List WP) (st : MatchState) (a : WP) :
    ∃ t, (phase2Step nieuw st a).rows = st.rows ++ t := by
  rcases phase2Step_shape nieuw st a with h | h
  · exact ⟨[], by rw [h]; simp⟩
  · obtain ⟨n, _, _, _, imp, heq⟩ := h
    exact ⟨_, by rw [heq]⟩

theorem phase3Step_rows_extend (nieuw : List WP) (st : MatchState) (a : WP) :
    ∃ t, (phase3Step nieuw st a).rows = st.rows ++ t := by
  rcases phase3Step_shape nieuw st a with ⟨h, _⟩ | h | ⟨_, h⟩
  · exact ⟨[], by rw [h]; simp⟩
  · obtain ⟨n, _, _, _, imp, heq⟩ := h
    exact ⟨_, by rw [heq]⟩
  · exact ⟨_, by rw [h]⟩

theorem phase4Step_rows_extend (st : MatchState) (n : WP) :
    ∃ t, (phase4Step st n).rows = st.rows ++ t := by
  rcases phase4Step_shape st n with ⟨h, _⟩ | ⟨_, h⟩
  · exact ⟨[], by rw [h]; simp⟩
  · exact ⟨_, by rw [h]⟩

theorem foldl_rows_extend {step : MatchState → WP → MatchState}
    (h : ∀ st a, ∃ t, (step st a).rows = st.rows ++ t) :
    ∀ (l : List WP) (st : MatchState), ∃ t, (l.foldl step st).rows = st.rows ++ t
  | [], st => ⟨[], by simp⟩
  | a :: l, st => by
    obtain ⟨t1, h1⟩ := h st a
    obtain ⟨t2, h2⟩ := foldl_rows_extend h l (step st a)
    exact ⟨t1 ++ t2, by rw [List.foldl_cons, h2, h1, List.append_assoc]⟩

/-- C3: phase 1 matches each unconsumed old entity with the first unconsumed,
unprocessed new entity carrying exactly the same (case-sensitive) name,
without consulting codes or any similarity score: the impact is the unchanged
sentence when the codes coincide and the bare re-code template (no rename
clause) otherwise.  Consequently, for a single old entity the reconciler's
first output row is this phase-1 match even when another new entity would be
closer under fuzzy similarity. -/
theorem c3_exact_name_first :
    (∀ (nieuw : List WP) (st : MatchState) (o n : WP),
      ¬ o.code ∈ st.matchedOud →
      nieuw.find? (fun x =>
        decide (x.naam = o.naam ∧ ¬ x.code ∈ st.matchedNieuw ∧
          ¬ (o.code, x.code) ∈ st.processed)) = some n →
      phase1Step nieuw st o =
        { matchedOud := o.code :: st.matchedOud
          matchedNieuw := n.code :: st.matchedNieuw
          processed := (o.code, n.code) :: st.processed
          rows := st.rows ++
            [⟨o.code, o.naam, n.code, n.naam,
              if o.code = n.code then "Geen wijziging in naam of codering"
              else recodeMsg o.code n.code, "7-14"⟩] }) ∧
    (∀ (o : WP) (nieuw : List WP) (n : WP),
      nieuw.find? (fun x => decide (x.naam = o.naam)) = some n →
      (reconcile [o] nieuw).head? =
        some ⟨o.code, o.naam, n.code, n.naam,
          if o.code = n.code then "Geen wijziging in naam of codering"
          else recodeMsg o.code n.code, "7-14"⟩) := by
  constructor
  · intro nieuw st o n hmo hfind
    exact phase1Step_match hmo hfind
  · intro o nieuw n hfind
    have hfind' : nieuw.find? (fun x =>
        decide (x.naam = o.naam ∧ ¬ x.code ∈ initState.matchedNieuw ∧
          ¬ (o.code, x.code) ∈ initState.processed)) = some n := by
      rw [find?_congr_pred _ (fun x => decide (x.naam = o.naam))
        (by intro x; simp [initState])]
      exact hfind
    have h1 : stPhase1 [o] nieuw = phase1Step nieuw initState o := rfl
    have h1' : (stPhase1 [o] nieuw).rows =
        [⟨o.code, o.naam, n.code, n.naam,
          if o.code = n.code then "Geen wijziging in naam of codering"
          else recodeMsg o.code n.code, "7-14"⟩] := by
      rw [h1, phase1Step_match (List.not_mem_nil _) hfind']
      rfl
    obtain ⟨t2, h2⟩ := foldl_rows_extend (phase2Step_rows_extend nieuw)
      (unmatchedSorted [o] nieuw) (stPhase1 [o] nieuw)
    obtain ⟨t3, h3⟩ := foldl_rows_extend (phase3Step_rows_extend nieuw)
      [o] (stPhase2 [o] nieuw)
    obtain ⟨t4, h4⟩ := foldl_rows_extend phase4Step_rows_extend
      nieuw (stPhase3 [o] nieuw)
    have hrows : reconcile [o] nieuw =
        (stPhase1 [o] nieuw).rows ++ (t2 ++ (t3 ++ t4)) := by
      show (nieuw.foldl phase4Step (stPhase3 [o] nieuw)).rows = _
      rw [h4]
      show (([o].foldl (phase3Step nieuw) (stPhase2 [o] nieuw)).rows) ++ t4 = _
      rw [h3]
      show (((unmatchedSorted [o] nieuw).foldl (phase2Step nieuw)
        (stPhase1 [o] nieuw)).rows ++ t3) ++ t4 = _
      rw [h2]
      simp [List.append_assoc]
    rw [hrows, h1']
    rfl

/-- C3 (witness): old `{B1-K1-W1, abcde}` with new candidates
`{B1-K1-W2, abcdX}` (similarity `0.8`, adjacent code) and `{B1-K1-W9, abcde}`
(exact name, distant code): phase 1 takes the exact-name entity `W9`, so the
first output row re-codes `W1` to `W9`. -/
theorem c3_exact_name_first_witness :
    (reconcile [⟨"B1-K1-W1", "abcde"⟩]
        [⟨"B1-K1-W2", "abcdX"⟩, ⟨"B1-K1-W9", "abcde"⟩]).head? =
      some ⟨"B1-K1-W1", "abcde", "B1-K1-W9", "abcde",
        if ("B1-K1-W1" : String) = "B1-K1-W9" then "Geen wijziging in naam of codering"
        else recodeMsg "B1-K1-W1" "B1-K1-W9", "7-14"⟩ :=
  c3_exact_name_first.2 ⟨"B1-K1-W1", "abcde"⟩
    [⟨"B1-K1-W2", "abcdX"⟩, ⟨"B1-K1-W9", "abcde"⟩] ⟨"B1-K1-W9", "abcde"⟩
    (by decide)

/-- C4: for an unconsumed old sub-process whose code parses as
`<parent>-W<num>`, phase 2 equals a first-hit scan of exactly the offsets
`[1, 2, 3, -1, -2, -3]` in that order: the state is unchanged when no offset
is valid, and otherwise the accepted candidate is the one at the first valid
offset (candidate code exists, unconsumed, unprocessed, and name similarity
above `0.7` or exactly equal names), after which no further offset is
consulted; any accepted offset is one of the six (never `+4` or beyond). -/
theorem c4_code_shift_offsets (nieuw : List WP) (st : MatchState) (o : WP)
    (parent : String) (num : Nat)
    (hp : parseWpCode o.code = some (parent, num))
    (hmo : ¬ o.code ∈ st.matchedOud) :
    phase2Step nieuw st o =
      (match [(1 : Int), 2, 3, -1, -2, -3].find? (shiftValid nieuw st o parent num) with
        | none => st
        | some d => emitShift nieuw st o parent num d) ∧
    (∀ d : Int,
      [(1 : Int), 2, 3, -1, -2, -3].find? (shiftValid nieuw st o parent num) = some d →
      d = 1 ∨ d = 2 ∨ d = 3 ∨ d = -1 ∨ d = -2 ∨ d = -3) := by
  constructor
  · unfold phase2Step
    rw [if_neg hmo, hp]
    exact tryOffsets_eq_find nieuw o parent num _ st
  · intro d hd
    have hmem := List.mem_of_find?_eq_some hd
    simpa using hmem

/-- C4 (witness): the offset characterization applied to old `B1-K1-W1` and
new `B1-K1-W2` with identical names; the first offset `+1` is valid, so phase
2 emits that match. -/
theorem c4_code_shift_offsets_witness :
    phase2Step [⟨"B1-K1-W2", "taak"⟩] initState ⟨"B1-K1-W1", "taak"⟩ =
      emitShift [⟨"B1-K1-W2", "taak"⟩] initState ⟨"B1-K1-W1", "taak"⟩ "B1-K1" 1 1 := by
  have h := (c4_code_shift_offsets [⟨"B1-K1-W2", "taak"⟩] initState
    ⟨"B1-K1-W1", "taak"⟩ "B1-K1" 1 (by decide) (by decide)).1
  rw [h]
  have hf : [(1 : Int), 2, 3, -1, -2, -3].find?
      (shiftValid [⟨"B1-K1-W2", "taak"⟩] initState ⟨"B1-K1-W1", "taak"⟩ "B1-K1" 1) =
      some 1 := by decide
  rw [hf]

/-- C5: both similarity thresholds are strict.  A phase-2 candidate whose
lowercased name similarity is exactly `0.7` is rejected unless the names are
exactly equal, and when every new entity scores at most `0.5` against an
unconsumed old entity, phase 3 finds no best match and emits the removed
residue row for it. -/
theorem c5_strict_thresholds :
    (∀ (nieuw : List WP) (st : MatchState) (o : WP) (parent : String) (num : Nat)
        (d : Int) (nwp : WP),
      lookupLastWP nieuw (shiftCode parent ((num : Int) + d)) = some nwp →
      similarity (strLower o.naam) (strLower nwp.naam) = mkRat 7 10 →
      ¬ o.naam = nwp.naam →
      shiftValid nieuw st o parent num d = false) ∧
    (∀ (nieuw : List WP) (st : MatchState) (o : WP),
      ¬ o.code ∈ st.matchedOud →
      (∀ n ∈ nieuw, similarity (strLower o.naam) (strLower n.naam) ≤ mkRat 1 2) →
      phase3Step nieuw st o = { st with rows := st.rows ++ [removedRow o] }) := by
  constructor
  · intro nieuw st o parent num d nwp hl hsim hne
    have h1 : decide (similarity (strLower o.naam) (strLower nwp.naam) > mkRat 7 10) =
        false := by
      rw [hsim]
      exact decide_eq_false (lt_irrefl _)
    have h2 : decide (o.naam = nwp.naam) = false := decide_eq_false hne
    simp [shiftValid, hl, h1, h2]
  · intro nieuw st o hmo hall
    have hbc : bestCand nieuw st o = (none, mkRat 1 2) := by
      unfold bestCand
      exact foldl_inv _ (fun acc : Option WP × ℚ => acc = (none, mkRat 1 2))
        nieuw (none, mkRat 1 2)
        (by
          intro t a ha ht
          subst ht
          by_cases h1 : a.code ∈ st.matchedNieuw
          · simp [h1]
          · simp only [if_neg h1]
            by_cases h2 : (o.code, a.code) ∈ st.processed
            · simp [h2]
            · simp only [if_neg h2]
              rw [if_neg (not_lt.2 (hall a ha))])
        rfl
    unfold phase3Step
    rw [if_neg hmo, hbc]

/-- C5 (witness): the strict thresholds at the exact boundary values:
similarity `0.7` (names `aaaaaaabbb` vs `aaaaaaaccc`) does not validate a
phase-2 shift, and a maximum similarity of exactly `0.5` (names `aabb` vs
`aacc`) sends the old entity to the removed residue. -/
theorem c5_strict_thresholds_witness :
    shiftValid [⟨"B1-K1-W2", "aaaaaaaccc"⟩] initState ⟨"B1-K1-W1", "aaaaaaabbb"⟩
      "B1-K1" 1 1 = false ∧
    phase3Step [⟨"N1", "aacc"⟩] initState ⟨"O1", "aabb"⟩ =
      { initState with rows := initState.rows ++ [removedRow ⟨"O1", "aabb"⟩] } :=
  ⟨c5_strict_thresholds.1 [⟨"B1-K1-W2", "aaaaaaaccc"⟩] initState
      ⟨"B1-K1-W1", "aaaaaaabbb"⟩ "B1-K1" 1 1 ⟨"B1-K1-W2", "aaaaaaaccc"⟩
      (by decide) (by decide) (by decide),
   c5_strict_thresholds.2 [⟨"N1", "aacc"⟩] initState ⟨"O1", "aabb"⟩
      (by decide) (by decide)⟩

/-- C1 (witness): the amended coverage theorem applied to the concrete pair
`[{X1, a}]` against `[{X1, a}]`. -/
theorem c1_coverage_witness :
    (reconcile [⟨"X1", "a"⟩] [⟨"X1", "a"⟩]).countP
        (fun r => decide (repOld ⟨"X1", "a"⟩ r)) = 1 ∧
    (reconcile [⟨"X1", "a"⟩] [⟨"X1", "a"⟩]).countP
        (fun r => decide (repNew ⟨"X1", "a"⟩ r)) = 1 :=
  ⟨(c1_coverage [⟨"X1", "a"⟩] [⟨"X1", "a"⟩] (by decide) (by decide) (by decide)
      (by decide)).1 ⟨"X1", "a"⟩ (by decide),
   (c1_coverage [⟨"X1", "a"⟩] [⟨"X1", "a"⟩] (by decide) (by decide) (by decide)
      (by decide)).2 ⟨"X1", "a"⟩ (by decide)⟩

/-- C8: the metadata differ emits, for any pair of metadata records, exactly
the four rows for its singleton field groups (dossier number, qualification
number and title, version label, validity date), each carrying its fixed
templated impact sentence; emission is unconditional, so even two identical
records produce all four rows. -/
theorem c8_metadata_rows (m1 m2 : Metadata) :
    compareMetadata m1 m2 =
      [⟨m1.crebonr_dossier, "-", m2.crebonr_dossier, "-",
        "Wijziging van crebonummer van het kwalificatiedossier", "1"⟩,
       ⟨m1.crebonr_kwalificatie, m1.naam_kwalificatie, m2.crebonr_kwalificatie,
        m2.naam_kwalificatie,
        "Naamswijziging van " ++ m1.naam_kwalificatie ++ " naar " ++
          m2.naam_kwalificatie ++ " en wijziging van crebonummer", "1"⟩,
       ⟨"-", "Gewijzigd " ++ m1.versie, "-", "Gewijzigd " ++ m2.versie,
        "Actualisatie van het kwalificatiedossier", "1"⟩,
       ⟨"-", "Geldig vanaf " ++ m1.geldig_vanaf, "-",
        "Geldig vanaf " ++ m2.geldig_vanaf, "Nieuwe geldigheidsdatum", "1"⟩] ∧
    (compareMetadata m1 m1).length = 4 :=
  ⟨rfl, rfl⟩

/-- C9: describing a text against itself always yields the rewording fallback
sentence and never an added-words or removed-words clause: both word sets are
empty and the length-ratio branches cannot fire on equal lengths. -/
theorem c9_describe_idempotent (s : String) :
    describeTextChange s s =
      "herformulering zonder significante inhoudelijke wijzigingen" := by
  unfold describeTextChange
  have hfil : ∀ l : List String, l.filter (fun w => decide (¬ w ∈ l)) = [] := by
    intro l
    apply List.filter_eq_nil_iff.mpr
    intro a ha
    simp [ha]
  have h65 : (1 : ℚ) ≤ mkRat 6 5 := by decide
  have h45 : mkRat 4 5 ≤ (1 : ℚ) := by decide
  have hlen : (0 : ℚ) ≤ (s.length : ℚ) := Nat.cast_nonneg _
  have h1 : ¬ ((s.length : ℚ) > (s.length : ℚ) * mkRat 6 5) := by
    have hm := mul_le_mul_of_nonneg_left h65 hlen
    rw [mul_one] at hm
    exact not_lt.2 hm
  have h2 : ¬ ((s.length : ℚ) < (s.length : ℚ) * mkRat 4 5) := by
    have hm := mul_le_mul_of_nonneg_left h45 hlen
    rw [mul_one] at hm
    exact not_lt.2 hm
  simp only [hfil]
  simp [h1, h2]

/-- C6 (counterexample): core tasks are not reconciled through the werkproces
phases.  `_compare_kerntaken` matches by exact code only, so an old and a new
kerntaak with identical name but different codes come out as one removed row
plus one added row, not as a re-coded match. -/
theorem c6_counterexample :
    compareKerntaken [⟨"B1-K1", "Taak"⟩] [⟨"B1-K2", "Taak"⟩] =
      [⟨"B1-K1", "Taak", "-", "-", "Kerntaak verwijderd in het nieuwe dossier", "6"⟩,
       ⟨"-", "-", "B1-K2", "Taak", "Nieuwe kerntaak toegevoegd in het nieuwe dossier", "6"⟩] := by
  decide

/-- C6 (amended): `_compare_kerntaken` reconciles core-task lists by exact
code equality only (one row per code of the sorted union; none of the
werkproces phases run).  In particular, an old and a new kerntaak sharing the
same exact name but different codes (each code absent from the other side)
yield one removed row and one added row, and no row pairs the two codes. -/
theorem c6_kerntaken_by_code (oudKt nieuwKt : List WP) (o n : WP)
    (ho : o ∈ oudKt) (hn : n ∈ nieuwKt) (hnaam : o.naam = n.naam)
    (hcode : ¬ o.code = n.code)
    (hon : ¬ o.code ∈ nieuwKt.map WP.code) (hno : ¬ n.code ∈ oudKt.map WP.code)
    (hod : ¬ o.code = "-") (hnd : ¬ n.code = "-") :
    (∃ r ∈ compareKerntaken oudKt nieuwKt,
      r.codering_oud = o.code ∧ r.codering_nieuw = "-" ∧
      r.impact = "Kerntaak verwijderd in het nieuwe dossier") ∧
    (∃ r ∈ compareKerntaken oudKt nieuwKt,
      r.codering_oud = "-" ∧ r.codering_nieuw = n.code ∧
      r.impact = "Nieuwe kerntaak toegevoegd in het nieuwe dossier") ∧
    (∀ r ∈ compareKerntaken oudKt nieuwKt,
      ¬ (r.codering_oud = o.code ∧ r.codering_nieuw = n.code)) := by
  have hmemO : o.code ∈ sortedCodes oudKt nieuwKt := by
    unfold sortedCodes
    rw [List.mem_insertionSort, List.mem_dedup]
    exact List.mem_append.2 (Or.inl (List.mem_map_of_mem _ ho))
  have hmemN : n.code ∈ sortedCodes oudKt nieuwKt := by
    unfold sortedCodes
    rw [List.mem_insertionSort, List.mem_dedup]
    exact List.mem_append.2 (Or.inr (List.mem_map_of_mem _ hn))
  refine ⟨?_, ?_, ?_⟩
  · refine ⟨kerntaakRowFor oudKt nieuwKt o.code,
      List.mem_map_of_mem _ hmemO, ?_, ?_, ?_⟩ <;>
    · simp only [kerntaakRowFor]
      rw [if_neg (fun h => hon h.2), if_pos (List.mem_map_of_mem WP.code ho)]
  · refine ⟨kerntaakRowFor oudKt nieuwKt n.code,
      List.mem_map_of_mem _ hmemN, ?_, ?_, ?_⟩ <;>
    · simp only [kerntaakRowFor]
      rw [if_neg (fun h => hno h.1), if_neg hno]
  · intro r hr
    obtain ⟨c, _, rfl⟩ := List.mem_map.1 hr
    simp only [kerntaakRowFor]
    by_cases h1 : c ∈ oudKt.map WP.code ∧ c ∈ nieuwKt.map WP.code
    · rw [if_pos h1]
      rintro ⟨ha, hb⟩
      have ha' : c = o.code := ha
      have hb' : c = n.code := hb
      exact hcode (ha'.symm.trans hb')
    · rw [if_neg h1]
      by_cases h2 : c ∈ oudKt.map WP.code
      · rw [if_pos h2]
        rintro ⟨_, hb⟩
        have hb' : ("-" : String) = n.code := hb
        exact hnd hb'.symm
      · rw [if_neg h2]
        rintro ⟨ha, _⟩
        have ha' : ("-" : String) = o.code := ha
        exact hod ha'.symm

/-- C2 (counterexample): `compare_all` does emit rows whose old and new codes
are both `"-"`: the version row of the metadata comparison (and likewise the
validity, prose-section and vakkennis rows) carries `"-"` on both sides, even
for dossiers with empty entity lists. -/
theorem c2_counterexample :
    (compareAll
        ⟨⟨"23189", "25407", "Beveiliger", "2023", "01-08-2023"⟩, [], [],
          "ctx1", "hou1", "res1", []⟩
        ⟨⟨"23190", "25690", "Beveiliger 2", "2024", "01-08-2024"⟩, [], [],
          "ctx2", "hou2", "res2", []⟩).any
      (fun r => decide (r.codering_oud = "-" ∧ r.codering_nieuw = "-")) = true := by
  decide

/-- C2 (amended): the both-codes-`"-"` ban holds for the entity rows — those
of the kerntaak comparison and of the werkproces reconciler — whenever no
entity carries the sentinel code `"-"`; the metadata version and validity
rows, the prose-section rows and the vakkennis row violate it by design. -/
theorem c2_entity_rows_no_double_dash :
    (∀ (oudKt nieuwKt : List WP),
      ¬ "-" ∈ oudKt.map WP.code → ¬ "-" ∈ nieuwKt.map WP.code →
      ∀ r ∈ compareKerntaken oudKt nieuwKt,
        ¬ (r.codering_oud = "-" ∧ r.codering_nieuw = "-")) ∧
    (∀ (oud nieuw : List WP),
      ¬ "-" ∈ oud.map WP.code → ¬ "-" ∈ nieuw.map WP.code →
      ∀ r ∈ reconcile oud nieuw,
        ¬ (r.codering_oud = "-" ∧ r.codering_nieuw = "-")) := by
  constructor
  · intro oudKt nieuwKt hod hnd r hr
    obtain ⟨c, hc, rfl⟩ := List.mem_map.1 hr
    have hc' : c ∈ oudKt.map WP.code ∨ c ∈ nieuwKt.map WP.code := by
      unfold sortedCodes at hc
      rw [List.mem_insertionSort, List.mem_dedup] at hc
      exact List.mem_append.1 hc
    have hcd : ¬ c = "-" := by
      rintro rfl
      rcases hc' with h | h
      · exact hod h
      · exact hnd h
    simp only [kerntaakRowFor]
    by_cases h1 : c ∈ oudKt.map WP.code ∧ c ∈ nieuwKt.map WP.code
    · rw [if_pos h1]
      rintro ⟨ha, _⟩
      exact hcd ha
    · rw [if_neg h1]
      by_cases h2 : c ∈ oudKt.map WP.code
      · rw [if_pos h2]
        rintro ⟨ha, _⟩
        exact hcd ha
      · rw [if_neg h2]
        rintro ⟨_, hb⟩
        exact hcd hb
  · intro oud nieuw hod hnd r hr
    have hshape : ∀ (st st' : MatchState) (a : WP), ¬ a.code = "-" →
        (st' = st ∨ matchEmit nieuw st st' a ∨
          st' = { st with rows := st.rows ++ [removedRow a] }) →
        (∀ x ∈ st.rows, ¬ (x.codering_oud = "-" ∧ x.codering_nieuw = "-")) →
        ∀ x ∈ st'.rows, ¬ (x.codering_oud = "-" ∧ x.codering_nieuw = "-") := by
      intro st st' a had hs hI x hrr
      rcases hs with h | h | h
      · rw [h] at hrr; exact hI x hrr
      · obtain ⟨n, _, _, _, imp, heq⟩ := h
        rw [heq] at hrr
        rcases List.mem_append.1 hrr with h1 | h1
        · exact hI x h1
        · rw [List.mem_singleton.1 h1]
          rintro ⟨ha, _⟩
          exact had ha
      · rw [h] at hrr
        rcases List.mem_append.1 hrr with h1 | h1
        · exact hI x h1
        · rw [List.mem_singleton.1 h1]
          rintro ⟨ha, _⟩
          exact had ha
    have hacode : ∀ a ∈ oud, ¬ a.code = "-" := fun a ha h =>
      hod (h ▸ List.mem_map_of_mem WP.code ha)
    have hncode : ∀ n ∈ nieuw, ¬ n.code = "-" := fun n hn h =>
      hnd (h ▸ List.mem_map_of_mem WP.code hn)
    have hsub : ∀ a ∈ unmatchedSorted oud nieuw, a ∈ oud := fun a ha =>
      (List.mem_filter.1 ((List.mem_insertionSort _).1 ha)).1
    have I1 := foldl_inv (phase1Step nieuw)
      (fun st => ∀ x ∈ st.rows, ¬ (x.codering_oud = "-" ∧ x.codering_nieuw = "-"))
      oud initState
      (fun t a ha hI => hshape t _ a (hacode a ha)
        ((phase1Step_shape nieuw t a).imp id Or.inl) hI)
      (fun x hx => absurd hx (List.not_mem_nil x))
    have I2 := foldl_inv (phase2Step nieuw)
      (fun st => ∀ x ∈ st.rows, ¬ (x.codering_oud = "-" ∧ x.codering_nieuw = "-"))
      (unmatchedSorted oud nieuw) (stPhase1 oud nieuw)
      (fun t a ha hI => hshape t _ a (hacode a (hsub a ha))
        ((phase2Step_shape nieuw t a).imp id Or.inl) hI) I1
    have I3 := foldl_inv (phase3Step nieuw)
      (fun st => ∀ x ∈ st.rows, ¬ (x.codering_oud = "-" ∧ x.codering_nieuw = "-"))
      oud (stPhase2 oud nieuw)
      (fun t a ha hI => by
        rcases phase3Step_shape nieuw t a with ⟨h, _⟩ | h | ⟨_, h⟩
        · exact hshape t _ a (hacode a ha) (Or.inl h) hI
        · exact hshape t _ a (hacode a ha) (Or.inr (Or.inl h)) hI
        · exact hshape t _ a (hacode a ha) (Or.inr (Or.inr h)) hI) I2
    have I4 := foldl_inv phase4Step
      (fun st => ∀ x ∈ st.rows, ¬ (x.codering_oud = "-" ∧ x.codering_nieuw = "-"))
      nieuw (stPhase3 oud nieuw)
      (fun t n hn hI => by
        rcases phase4Step_shape t n with ⟨h, _⟩ | ⟨_, h⟩
        · rw [h]; exact hI
        · rw [h]
          intro x hrr
          rcases List.mem_append.1 hrr with h1 | h1
          · exact hI x h1
          · rw [List.mem_singleton.1 h1]
            rintro ⟨_, hb⟩
            exact hncode n hn hb) I3
    exact I4 r hr

/-- C2 (witness): the amended theorem applied to a removed kerntaak row of
`compareKerntaken [{K1, a}] []` and the removed werkproces row of
`reconcile [{X1, a}] []`. -/
theorem c2_entity_rows_no_double_dash_witness :
    ¬ ((⟨"K1", "a", "-", "-", "Kerntaak verwijderd in het nieuwe dossier", "6"⟩ :
        Row).codering_oud = "-" ∧
      (⟨"K1", "a", "-", "-", "Kerntaak verwijderd in het nieuwe dossier", "6"⟩ :
        Row).codering_nieuw = "-") ∧
    ¬ ((removedRow ⟨"X1", "a"⟩).codering_oud = "-" ∧
      (removedRow ⟨"X1", "a"⟩).codering_nieuw = "-") :=
  ⟨c2_entity_rows_no_double_dash.1 [⟨"K1", "a"⟩] [] (by decide) (by decide)
      ⟨"K1", "a", "-", "-", "Kerntaak verwijderd in het nieuwe dossier", "6"⟩
      (by decide),
   c2_entity_rows_no_double_dash.2 [⟨"X1", "a"⟩] [] (by decide) (by decide)
      (removedRow ⟨"X1", "a"⟩) (by decide)⟩

/-- C6 (witness): the amended kerntaak theorem applied to the counterexample
lists: the removed row for `B1-K1` never pairs the codes `B1-K1` and
`B1-K2`. -/
theorem c6_kerntaken_by_code_witness :
    ¬ ((⟨"B1-K1", "Taak", "-", "-", "Kerntaak verwijderd in het nieuwe dossier",
        "6"⟩ : Row).codering_oud = "B1-K1" ∧
      (⟨"B1-K1", "Taak", "-", "-", "Kerntaak verwijderd in het nieuwe dossier",
        "6"⟩ : Row).codering_nieuw = "B1-K2") :=
  (c6_kerntaken_by_code [⟨"B1-K1", "Taak"⟩] [⟨"B1-K2", "Taak"⟩]
      ⟨"B1-K1", "Taak"⟩ ⟨"B1-K2", "Taak"⟩ (by decide) (by decide) (by decide)
      (by decide) (by decide) (by decide) (by decide) (by decide)).2.2
    ⟨"B1-K1", "Taak", "-", "-", "Kerntaak verwijderd in het nieuwe dossier", "6"⟩
    (by decide)

end KD
